import Mathlib

/-!
Verification development for the parallel table-integrity checker
(`quick_verify.py`).  The script enumerates databases and tables,
validates each database schema with a schema-only dump, enqueues
`(database, table)` jobs on a shared FIFO, and drains the queue with a
fixed pool of worker processes that dump every table to a discard sink.

The embedding has two layers, both translated from the source:

* a sequential model of `main` before the drain loop (binary-tools
  check, database listing, the optional single-database restriction,
  schema validation and table enqueueing, the zero-tables check), which
  records an event trace of validations and enqueues;
* a small-step machine for the concurrent drain phase, whose actions
  are a worker taking one job off the queue (`workerProcess`, one loop
  iteration), one supervisor liveness/emptiness poll (one iteration of
  the `while not queue.empty()` loop), and an external kill of a
  worker process.  Dump subprocess results are supplied by an
  environment function mapping each job to the `(exitcode, output)`
  pair returned by `shell_exec_with_output`.
-/

namespace QuickVerify

/-- Jobs are the `(dbname, tbl)` pairs put on the multiprocessing queue. -/
abbrev Job := String × String

/-- Classification of one dump invocation, following `workerProcess`:
exit code 0 is success; a non-zero exit code whose combined output
contains the missing-table message is a soft failure; any other
non-zero exit code is a hard failure. -/
inductive DumpClass where
  | success : DumpClass
  | soft : DumpClass
  | hard : DumpClass
deriving DecidableEq, Repr

/-- Substring searched for in the dump output on a non-zero exit code
(`output.find("No matching tables were found") >= 0`). -/
def missingTablesMsg : String := "No matching tables were found"

/-- Boolean substring search on character lists: true when `needle`
occurs contiguously in the scanned list, matching the semantics of the
Python expression `hay.find(needle) >= 0`. -/
def containsChars (needle : List Char) : List Char → Bool
  | [] => needle.isEmpty
  | c :: rest => needle.isPrefixOf (c :: rest) || containsChars needle rest

/-- Substring containment on strings. -/
def containsSubstr (s sub : String) : Bool :=
  containsChars sub.toList s.toList

/-- Outcome classification of one dump invocation, translated from the
branch structure of `workerProcess` (lines 45-50 of the source). -/
def classifyDump (retcode : Int) (output : String) : DumpClass :=
  if retcode = 0 then DumpClass.success
  else if containsSubstr output missingTablesMsg then DumpClass.soft
  else DumpClass.hard

/-- Model of `os.path.join` for the two paths built by the script. -/
def joinPath (dir file : String) : String := dir ++ "/" ++ file

/-- Path probed by the startup binary-tools check
(`os.path.exists(os.path.join(args.bindir, 'pg_dumpall'))`, line 118). -/
def startupToolPath (bindir : String) : String := joinPath bindir "pg_dumpall"

/-- Path of the dump tool actually invoked by `workerProcess` and
`verifySchema` (`os.path.join(args.bindir, 'pg_dump')`, lines 42 and 66). -/
def dumpToolPath (bindir : String) : String := joinPath bindir "pg_dump"

/-- Argument tail of the per-table dump command built by `workerProcess`. -/
def workerCmdArgs (host : String) (port : Int) (user tbl dbname : String) : String :=
  " -h " ++ host ++ " -p " ++ toString port ++ " -U \"" ++ user ++ "\" -t " ++
    tbl ++ " \"" ++ dbname ++ "\" >/dev/null"

/-- Shell command built by `workerProcess` for one job (lines 41-42). -/
def workerCmd (bindir host : String) (port : Int) (user tbl dbname : String) : String :=
  dumpToolPath bindir ++ workerCmdArgs host port user tbl dbname

/-- Argument tail of the schema-only dump command built by `verifySchema`. -/
def schemaCmdArgs (host : String) (port : Int) (user dbname : String) : String :=
  " -h " ++ host ++ " -p " ++ toString port ++ " -U \"" ++ user ++
    "\" --schema-only \"" ++ dbname ++ "\" >/dev/null"

/-- Shell command built by `verifySchema` (lines 65-66). -/
def schemaCmd (bindir host : String) (port : Int) (user dbname : String) : String :=
  dumpToolPath bindir ++ schemaCmdArgs host port user dbname

/-- State of one worker process: its identity, whether the process is
alive, and the jobs it has taken off the queue so far (its history). -/
structure WorkerState where
  wid : Nat
  alive : Bool
  processed : List Job
deriving DecidableEq, Repr

/-- Effect of one `workerProcess` loop iteration on the worker that
dequeued job `jb`, given the dump result supplied by `env`:
on success or soft failure the loop continues; on hard failure the
worker calls `exit(1)` and its process dies. -/
def runWorkerJob (env : Job → Int × String) (w : WorkerState) (jb : Job) : WorkerState :=
  match classifyDump (env jb).1 (env jb).2 with
  | DumpClass.success => { w with processed := w.processed ++ [jb] }
  | DumpClass.soft => { w with processed := w.processed ++ [jb] }
  | DumpClass.hard => { w with processed := w.processed ++ [jb], alive := false }

/-- Worker pool created by `launchWorkers`: `args.jobs` processes, each
started alive with an empty history. -/
def launchWorkers (jobs : Nat) : List WorkerState :=
  (List.range jobs).map (fun i => { wid := i, alive := true, processed := [] })

/-- Translation of `allWorkersAlive`: scans the worker list and returns
false at the first dead worker, true otherwise (so true on an empty list). -/
def allWorkersAlive (ws : List WorkerState) : Bool :=
  ws.all (fun w => w.alive)

/-- Global state of the drain phase: the job queue (FIFO, head is the
next job handed out), the worker pool, and the exit code of the whole
run once the supervisor has decided it. -/
structure RunState where
  queue : List Job
  workers : List WorkerState
  exitCode : Option Nat
deriving DecidableEq, Repr

/-- Scheduling actions of the drain phase: worker `i` performs one loop
iteration (a blocking dequeue, so a no-op on an empty queue), the
supervisor performs one poll of its drain loop, or the environment
kills worker `i` (an unexpected external termination). -/
inductive Action where
  | workerStep : Nat → Action
  | supervisorPoll : Action
  | kill : Nat → Action
deriving DecidableEq, Repr

/-- Small-step transition of the drain phase.  A worker step dequeues
the head job and processes it (`workerProcess`); a supervisor poll is
one iteration of `while not queue.empty()`: when the queue is empty the
loop exits and the run finishes with exit code 0, otherwise a dead
worker makes the supervisor call `exit(1)`, and otherwise it sleeps.
After the run has an exit code the process is gone and nothing moves. -/
def step (env : Job → Int × String) (st : RunState) (a : Action) : RunState :=
  if st.exitCode.isSome then st
  else
    match a with
    | Action.workerStep i =>
      match st.workers[i]? with
      | none => st
      | some w =>
        if w.alive then
          match st.queue with
          | [] => st
          | jb :: rest =>
            { st with queue := rest, workers := st.workers.set i (runWorkerJob env w jb) }
        else st
    | Action.supervisorPoll =>
      if st.queue.isEmpty then { st with exitCode := some 0 }
      else if allWorkersAlive st.workers then st
      else { st with exitCode := some 1 }
    | Action.kill i =>
      match st.workers[i]? with
      | none => st
      | some w => { st with workers := st.workers.set i { w with alive := false } }

/-- Run of the drain phase under an explicit schedule of actions. -/
def exec (env : Job → Int × String) (s : List Action) (st : RunState) : RunState :=
  s.foldl (step env) st

/-- Initial drain-phase state: all discovered jobs enqueued, `j` freshly
launched workers, run still undecided. -/
def initState (jobs : List Job) (j : Nat) : RunState :=
  { queue := jobs, workers := launchWorkers j, exitCode := none }

/-- Concatenated dequeue histories of all workers in pool order. -/
def allProcessed (ws : List WorkerState) : List Job :=
  (ws.map (fun w => w.processed)).flatten

/-- Fair round-robin schedule that lets the pool of `j` workers perform
`n` loop iterations (iteration `k` is taken by worker `k % j`) and then
lets the supervisor poll once. -/
def drainSchedule (n j : Nat) : List Action :=
  ((List.range n).map (fun k => k % j)).map Action.workerStep ++ [Action.supervisorPoll]

/-- Observable events of the sequential setup phase of `main`:
a successful schema validation of a database, and the enqueueing of one
table of a database. -/
inductive Event where
  | validateOk : String → Event
  | enqueue : String → String → Event
deriving DecidableEq, Repr

/-- External environment of the setup phase: which paths exist on disk,
the database list returned by the `pg_database` query, the
`(exitcode, output)` of a schema-only dump per database, and the table
list returned by the catalog query per database. -/
structure Env where
  pathExists : String → Bool
  dbs : List String
  schemaExec : String → Int × String
  tablesOf : String → List String

/-- Result of the setup phase: either a fatal abort (an uncaught Python
exception, process exit code 1) with the event trace so far, or the
trace together with the fully enqueued job list, ready for the drain
loop. -/
inductive SetupOutcome where
  | fatal : List Event → SetupOutcome
  | ready : List Event → List Job → SetupOutcome
deriving DecidableEq, Repr

/-- The per-database loop of `main` (lines 134-137): for each database
in listing order run `verifySchema` (whose non-zero dump result raises)
and then `addTablesFromDB`, which enqueues every listed table. -/
def processDbs (env : Env) : List String → SetupOutcome
  | [] => SetupOutcome.ready [] []
  | db :: rest =>
    if (env.schemaExec db).1 ≠ 0 then SetupOutcome.fatal []
    else
      match processDbs env rest with
      | SetupOutcome.fatal tr =>
        SetupOutcome.fatal (Event.validateOk db ::
          ((env.tablesOf db).map (fun t => Event.enqueue db t) ++ tr))
      | SetupOutcome.ready tr jobs =>
        SetupOutcome.ready (Event.validateOk db ::
            ((env.tablesOf db).map (fun t => Event.enqueue db t) ++ tr))
          ((env.tablesOf db).map (fun t => (db, t)) ++ jobs)

/-- The zero-tables check of `main` (lines 139-140): when no table was
enqueued at all the run raises `No tables found to be dumped!`. -/
def finishSetup : SetupOutcome → SetupOutcome
  | SetupOutcome.fatal tr => SetupOutcome.fatal tr
  | SetupOutcome.ready tr jobs =>
    if jobs.length = 0 then SetupOutcome.fatal tr else SetupOutcome.ready tr jobs

/-- Setup phase of `main` (lines 118-140): the `pg_dumpall` existence
check, the database listing, the optional single-database restriction
(raising when the requested database is unknown), then the
validate-and-enqueue loop and the zero-tables check. -/
def setup (env : Env) (bindir : String) (argDbname : Option String) : SetupOutcome :=
  if env.pathExists (startupToolPath bindir) = false then SetupOutcome.fatal []
  else
    match argDbname with
    | some d =>
      if env.dbs.contains d = false then SetupOutcome.fatal []
      else finishSetup (processDbs env [d])
    | none => finishSetup (processDbs env env.dbs)

/-- Event trace of a setup outcome. -/
def traceOf : SetupOutcome → List Event
  | SetupOutcome.fatal tr => tr
  | SetupOutcome.ready tr _ => tr

/-- Process exit code determined by the setup phase: an uncaught
exception terminates the interpreter with exit code 1; a ready outcome
continues into the drain loop with the exit code still open. -/
def setupExitCode : SetupOutcome → Option Nat
  | SetupOutcome.fatal _ => some 1
  | SetupOutcome.ready _ _ => none

/-- Whether the setup phase aborted fatally. -/
def setupIsFatal : SetupOutcome → Bool
  | SetupOutcome.fatal _ => true
  | SetupOutcome.ready _ _ => false

/-- Checks that along a trace every enqueue of a table of database `db`
is preceded by a successful schema validation of `db`; the accumulator
holds the databases validated so far. -/
def goodTrace : List Event → List String → Bool
  | [], _ => true
  | Event.validateOk db :: rest, vs => goodTrace rest (db :: vs)
  | Event.enqueue db _ :: rest, vs => vs.contains db && goodTrace rest vs

/-- Databases owning the tables enqueued along a trace, in order. -/
def enqueuedDbs : List Event → List String
  | [] => []
  | Event.validateOk _ :: rest => enqueuedDbs rest
  | Event.enqueue db _ :: rest => db :: enqueuedDbs rest

/-- Dump environment in which every invocation fails with exit code 2
and an output that does not contain the missing-table substring, so
every dump is a hard failure. -/
def hardEnv : Job → Int × String := fun _ => (2, "read error")

/-- Drain-phase start state with a single job and a single worker. -/
def c1Init : RunState := initState [("db1", "public.t1")] 1

/-- Drain-phase start state with two jobs and a single worker. -/
def c1TwoJobInit : RunState := initState [("db1", "public.t1"), ("db1", "public.t2")] 1

/-- Filesystem predicate true only for the `pg_dumpall` path inside
the `/bin` binaries folder — a bindir lacking `pg_dump`. -/
def pgDumpallOnlyFs : String → Bool := fun p => p == startupToolPath "/bin"

/-- Setup environment over a bindir with `pg_dumpall` but no `pg_dump`:
every schema-only dump invocation fails with the shell exit code 127
for a missing command. -/
def missingDumpEnv : Env :=
  { pathExists := pgDumpallOnlyFs
    dbs := ["db1"]
    schemaExec := fun _ => (127, "/bin/pg_dump: not found")
    tablesOf := fun _ => ["public.t1"] }

/-- Same filesystem, but with working schema-only dump invocations. -/
def missingDumpEnvGood : Env :=
  { missingDumpEnv with schemaExec := fun _ => (0, "") }

/-- Setup environment with three databases whose second schema
validation fails. -/
def failingSchemaEnv : Env :=
  { pathExists := fun _ => true
    dbs := ["dba", "dbb", "dbc"]
    schemaExec := fun d => if d == "dba" then (0, "") else (1, "schema dump failed")
    tablesOf := fun _ => ["public.t1"] }

/-- Setup environment with one database holding no eligible tables. -/
def noTablesEnv : Env :=
  { pathExists := fun _ => true
    dbs := ["dba"]
    schemaExec := fun _ => (0, "")
    tablesOf := fun _ => [] }

/-- Setup environment used for the unknown-database scenario. -/
def singleDbEnv : Env :=
  { pathExists := fun _ => true
    dbs := ["dba"]
    schemaExec := fun _ => (0, "")
    tablesOf := fun _ => ["public.t1"] }

theorem step_worker_exitCode (env : Job → Int × String) (st : RunState) (i : Nat) :
    (step env st (Action.workerStep i)).exitCode = st.exitCode := by
  by_cases h0 : st.exitCode.isSome
  · simp [step, h0]
  · cases hw : st.workers[i]? with
    | none => simp [step, h0, hw]
    | some w =>
      by_cases ha : w.alive
      · cases hq : st.queue with
        | nil => simp [step, h0, hw, ha, hq]
        | cons jb rest => simp [step, h0, hw, ha, hq]
      · simp [step, h0, hw, ha]

theorem allWorkersAlive_set_false (ws : List WorkerState) (i : Nat) (w : WorkerState)
    (h : i < ws.length) (hw : w.alive = false) :
    allWorkersAlive (ws.set i w) = false := by
  have hmem : w ∈ ws.set i w :=
    List.getElem?_mem (List.getElem?_set_self (l := ws) (i := i) (a := w) h)
  rw [allWorkersAlive, List.all_eq_false]
  exact ⟨w, hmem, by simp [hw]⟩

/-- Claim C5 (amended): whenever the run is still undecided, some
worker has terminated, and jobs still remain in the queue at the next
supervisor poll (one liveness-poll tick of the drain loop), that poll
detects the dead worker and ends the run with exit code 1, regardless
of the remaining queue depth.  The proviso that jobs remain at the
poll itself is forced: when the surviving workers drain the queue
between the death and the poll, the drain loop exits first and the run
ends with exit code 0, as the counterexample shows. -/
theorem c5_dead_worker_detected (env : Job → Int × String) (st : RunState)
    (h0 : st.exitCode = none) (hq : st.queue ≠ [])
    (hdead : allWorkersAlive st.workers = false) :
    (step env st Action.supervisorPoll).exitCode = some 1 := by
  have hq' : st.queue.isEmpty = false := List.isEmpty_eq_false.mpr hq
  simp [step, h0, hq', hdead]

/-- Witness for C5 at a concrete state: one job left, one dead worker. -/
theorem c5_dead_worker_detected_witness :
    (step (fun _ => (0, ""))
      { queue := [("db1", "public.t1")],
        workers := [{ wid := 0, alive := false, processed := [] }],
        exitCode := none }
      Action.supervisorPoll).exitCode = some 1 :=
  c5_dead_worker_detected (fun _ => (0, ""))
    { queue := [("db1", "public.t1")],
      workers := [{ wid := 0, alive := false, processed := [] }],
      exitCode := none }
    rfl (by simp) (by decide)

/-- Claim C5, counterexample: a worker is killed externally while both
jobs are still in the queue, the surviving worker drains the queue
before the supervisor polls, and the poll then sees an empty queue and
exits the drain loop — the run terminates with exit code 0 and the
dead worker is never detected, refuting the claim that a worker death
with jobs remaining always ends the run in failure. -/
theorem c5_counterexample :
    allWorkersAlive (exec (fun _ => (0, ""))
      [Action.kill 0, Action.workerStep 1, Action.workerStep 1, Action.supervisorPoll]
      (initState [("db1", "public.t1"), ("db1", "public.t2")] 2)).workers = false ∧
    (exec (fun _ => (0, ""))
      [Action.kill 0, Action.workerStep 1, Action.workerStep 1, Action.supervisorPoll]
      (initState [("db1", "public.t1"), ("db1", "public.t2")] 2)).exitCode = some 0 := by
  decide

/-- Claim C3: classification of a dump invocation by the worker loop.
Exit code 0 is a success and the worker stays alive with its loop
continuing; a non-zero exit code whose combined output contains the
missing-table substring is a soft failure and the worker also stays
alive; any other non-zero exit code is a hard failure and the worker
process ends. -/
theorem c3_dump_classification (env : Job → Int × String) (w : WorkerState) (jb : Job)
    (halive : w.alive = true) :
    ((env jb).1 = 0 →
      classifyDump (env jb).1 (env jb).2 = DumpClass.success ∧
      (runWorkerJob env w jb).alive = true) ∧
    ((env jb).1 ≠ 0 → containsSubstr (env jb).2 missingTablesMsg = true →
      classifyDump (env jb).1 (env jb).2 = DumpClass.soft ∧
      (runWorkerJob env w jb).alive = true) ∧
    ((env jb).1 ≠ 0 → containsSubstr (env jb).2 missingTablesMsg = false →
      classifyDump (env jb).1 (env jb).2 = DumpClass.hard ∧
      (runWorkerJob env w jb).alive = false) := by
  refine ⟨fun h0 => ?_, fun hn hsub => ?_, fun hn hsub => ?_⟩
  · have hc : classifyDump (env jb).1 (env jb).2 = DumpClass.success := by
      simp [classifyDump, h0]
    exact ⟨hc, by simp [runWorkerJob, hc, halive]⟩
  · have hc : classifyDump (env jb).1 (env jb).2 = DumpClass.soft := by
      simp [classifyDump, hn, hsub]
    exact ⟨hc, by simp [runWorkerJob, hc, halive]⟩
  · have hc : classifyDump (env jb).1 (env jb).2 = DumpClass.hard := by
      simp [classifyDump, hn, hsub]
    exact ⟨hc, by simp [runWorkerJob, hc]⟩

/-- Witness for C3 at a concrete successful dump invocation. -/
theorem c3_dump_classification_witness :
    classifyDump 0 "" = DumpClass.success ∧
    (runWorkerJob (fun _ => (0, "")) { wid := 0, alive := true, processed := [] }
      ("db1", "public.t1")).alive = true :=
  (c3_dump_classification (fun _ => (0, ""))
    { wid := 0, alive := true, processed := [] } ("db1", "public.t1") rfl).1 rfl

/-- Claim C1, counterexample: with one worker and one enqueued job whose
dump is a hard failure, the worker dies after dequeueing the last job,
the queue is empty at the supervisor poll, so the drain loop exits and
the run terminates with exit code 0 — a hard dump failure after which
the overall run does not terminate with failure. -/
theorem c1_counterexample :
    classifyDump (hardEnv ("db1", "public.t1")).1 (hardEnv ("db1", "public.t1")).2 =
      DumpClass.hard ∧
    allWorkersAlive (exec hardEnv [Action.workerStep 0, Action.supervisorPoll] c1Init).workers =
      false ∧
    (exec hardEnv [Action.workerStep 0, Action.supervisorPoll] c1Init).exitCode = some 0 := by
  decide

/-- Claim C1 (amended): a hard dump failure terminates the worker that
hit it, and the run then terminates with failure (exit code 1) at the
supervisor poll that follows, provided jobs still remain in the queue
at that poll; when the failing job was the last one in the queue, the
drain loop instead exits and the run terminates with exit code 0. -/
theorem c1_hard_failure_amended (env : Job → Int × String) (st : RunState)
    (i : Nat) (w : WorkerState) (jb : Job) (rest : List Job)
    (h0 : st.exitCode = none) (hq : st.queue = jb :: rest)
    (hw : st.workers[i]? = some w) (halive : w.alive = true)
    (hhard : classifyDump (env jb).1 (env jb).2 = DumpClass.hard) :
    (step env st (Action.workerStep i)).queue = rest ∧
    allWorkersAlive (step env st (Action.workerStep i)).workers = false ∧
    (rest ≠ [] →
      (step env (step env st (Action.workerStep i)) Action.supervisorPoll).exitCode = some 1) ∧
    (rest = [] →
      (step env (step env st (Action.workerStep i)) Action.supervisorPoll).exitCode = some 0) := by
  have hi : i < st.workers.length := by
    rcases List.getElem?_eq_some_iff.mp hw with ⟨h, _⟩
    exact h
  have hstep : step env st (Action.workerStep i) =
      { st with queue := rest, workers := st.workers.set i (runWorkerJob env w jb) } := by
    simp [step, h0, hw, halive, hq]
  have hdead : (runWorkerJob env w jb).alive = false := by
    simp [runWorkerJob, hhard]
  have halldead : allWorkersAlive (st.workers.set i (runWorkerJob env w jb)) = false :=
    allWorkersAlive_set_false _ i _ hi hdead
  refine ⟨by rw [hstep], by rw [hstep]; exact halldead, fun hne => ?_, fun hnil => ?_⟩
  · rw [hstep]
    simp [step, h0, halldead, List.isEmpty_eq_false.mpr hne]
  · rw [hstep]
    simp [step, h0, hnil]

/-- Witness for the amended C1: two jobs, one worker, the first dump is
a hard failure, one job remains at the poll, so the run exits with 1. -/
theorem c1_hard_failure_amended_witness :
    (step hardEnv (step hardEnv c1TwoJobInit (Action.workerStep 0))
      Action.supervisorPoll).exitCode = some 1 :=
  (c1_hard_failure_amended hardEnv c1TwoJobInit 0
    { wid := 0, alive := true, processed := [] } ("db1", "public.t1") [("db1", "public.t2")]
    rfl rfl (by decide) rfl (by decide)).2.2.1 (by decide)

/-- Claim C10: `allWorkersAlive` is vacuously true on an empty worker
list; a run started with a worker count of zero launches no workers,
and then no drain-phase action changes the state under any schedule:
no job is ever dequeued, and the supervisor never fails its liveness
check (the run neither fails nor finishes). -/
theorem c10_zero_workers (env : Job → Int × String) (s : List Action)
    (jobs : List Job) (hjobs : jobs ≠ []) :
    launchWorkers 0 = [] ∧ allWorkersAlive [] = true ∧
    exec env s (initState jobs 0) = initState jobs 0 := by
  refine ⟨rfl, rfl, ?_⟩
  induction s with
  | nil => rfl
  | cons a s ih =>
    have hfix : step env (initState jobs 0) a = initState jobs 0 := by
      cases a with
      | workerStep i => simp [step, initState, launchWorkers]
      | supervisorPoll =>
        simp [step, initState, launchWorkers, allWorkersAlive,
          List.isEmpty_eq_false.mpr hjobs]
      | kill i => simp [step, initState, launchWorkers]
    calc exec env (a :: s) (initState jobs 0)
        = exec env s (step env (initState jobs 0) a) := rfl
      _ = exec env s (initState jobs 0) := by rw [hfix]
      _ = initState jobs 0 := ih

/-- Witness for C10: a zero-worker run over a one-job queue is frozen
under a concrete schedule of a poll and a worker step. -/
theorem c10_zero_workers_witness :
    launchWorkers 0 = [] ∧ allWorkersAlive [] = true ∧
    exec (fun _ => (0, "")) [Action.supervisorPoll, Action.workerStep 0]
      (initState [("db1", "public.t1")] 0) = initState [("db1", "public.t1")] 0 :=
  c10_zero_workers (fun _ => (0, "")) [Action.supervisorPoll, Action.workerStep 0]
    [("db1", "public.t1")] (by decide)

theorem goodTrace_enqueues (tbls : List String) (tr : List Event) (vs : List String)
    (db : String) (hvs : vs.contains db = true) :
    goodTrace ((tbls.map (fun t => Event.enqueue db t)) ++ tr) vs = goodTrace tr vs := by
  induction tbls with
  | nil => rfl
  | cons t ts ih =>
    simp only [List.map_cons, List.cons_append, goodTrace, hvs, Bool.true_and]
    exact ih

theorem traceOf_finishSetup (o : SetupOutcome) : traceOf (finishSetup o) = traceOf o := by
  cases o with
  | fatal tr => rfl
  | ready tr jobs =>
    by_cases h : jobs.length = 0
    · simp [finishSetup, h, traceOf]
    · simp [finishSetup, h, traceOf]

theorem goodTrace_processDbs (env : Env) :
    ∀ (dbs : List String) (vs : List String),
      goodTrace (traceOf (processDbs env dbs)) vs = true := by
  intro dbs
  induction dbs with
  | nil => intro vs; rfl
  | cons db rest ih =>
    intro vs
    by_cases hfail : (env.schemaExec db).1 ≠ 0
    · simp [processDbs, hfail, traceOf, goodTrace]
    · cases hrec : processDbs env rest with
      | fatal tr =>
        have htr : goodTrace tr (db :: vs) = true := by
          have h := ih (db :: vs)
          rw [hrec] at h
          exact h
        simp only [processDbs, if_neg hfail, hrec, traceOf, goodTrace]
        rw [goodTrace_enqueues _ _ _ _ (by simp)]
        exact htr
      | ready tr jobs =>
        have htr : goodTrace tr (db :: vs) = true := by
          have h := ih (db :: vs)
          rw [hrec] at h
          exact h
        simp only [processDbs, if_neg hfail, hrec, traceOf, goodTrace]
        rw [goodTrace_enqueues _ _ _ _ (by simp)]
        exact htr

theorem goodTrace_setup (e : Env) (b : String) (ad : Option String) :
    goodTrace (traceOf (setup e b ad)) [] = true := by
  by_cases hp : e.pathExists (startupToolPath b) = false
  · simp [setup, hp, traceOf, goodTrace]
  · cases ad with
    | none =>
      simp only [setup, if_neg hp]
      rw [traceOf_finishSetup]
      exact goodTrace_processDbs e e.dbs []
    | some d =>
      by_cases hmem : d ∈ e.dbs
      · have hcc : ¬e.dbs.contains d = false := by simp [hmem]
        simp only [setup, if_neg hp, if_neg hcc]
        rw [traceOf_finishSetup]
        exact goodTrace_processDbs e [d] []
      · have hcc : e.dbs.contains d = false := by simp [hmem]
        simp only [setup, if_neg hp, if_pos hcc]
        rfl

theorem enqueuedDbs_append (a b : List Event) :
    enqueuedDbs (a ++ b) = enqueuedDbs a ++ enqueuedDbs b := by
  induction a with
  | nil => rfl
  | cons e rest ih => cases e <;> simp [enqueuedDbs, ih]

theorem enqueuedDbs_enqueues (db : String) (tbls : List String) :
    enqueuedDbs (tbls.map (fun t => Event.enqueue db t)) = tbls.map (fun _ => db) := by
  induction tbls with
  | nil => rfl
  | cons t ts ih => simp [enqueuedDbs, ih]

theorem processDbs_first_failure (env : Env) (k : String) (post : List String)
    (hk : (env.schemaExec k).1 ≠ 0) :
    ∀ (pre : List String), (∀ d ∈ pre, (env.schemaExec d).1 = 0) →
      setupIsFatal (processDbs env (pre ++ k :: post)) = true ∧
      ∀ db ∈ enqueuedDbs (traceOf (processDbs env (pre ++ k :: post))), db ∈ pre := by
  intro pre
  induction pre with
  | nil =>
    intro _
    constructor
    · simp [processDbs, hk, setupIsFatal]
    · simp [processDbs, hk, traceOf, enqueuedDbs]
  | cons d pre ih =>
    intro hok
    have hd : (env.schemaExec d).1 = 0 := hok d (List.mem_cons_self d pre)
    have hdnn : ¬(env.schemaExec d).1 ≠ 0 := by simp [hd]
    have hpre : ∀ x ∈ pre, (env.schemaExec x).1 = 0 :=
      fun x hx => hok x (List.mem_cons_of_mem d hx)
    obtain ⟨hfat, hloc⟩ := ih hpre
    cases hrec : processDbs env (pre ++ k :: post) with
    | fatal tr =>
      rw [hrec] at hloc
      have hout : processDbs env (d :: (pre ++ k :: post)) =
          SetupOutcome.fatal (Event.validateOk d ::
            ((env.tablesOf d).map (fun t => Event.enqueue d t) ++ tr)) := by
        simp only [processDbs, if_neg hdnn]
        rw [hrec]
      constructor
      · rw [List.cons_append, hout]
        rfl
      · intro db hdb
        rw [List.cons_append, hout] at hdb
        simp only [traceOf, enqueuedDbs, enqueuedDbs_append, enqueuedDbs_enqueues] at hdb
        rcases List.mem_append.mp hdb with hl | hr
        · rcases List.mem_map.mp hl with ⟨t, _, rfl⟩
          exact List.mem_cons_self d pre
        · exact List.mem_cons_of_mem d (hloc db hr)
    | ready tr jobs =>
      rw [hrec] at hfat
      simp [setupIsFatal] at hfat

/-- Claim C4: every enqueue of a table is preceded in the event trace by
a successful schema validation of its owning database; and when schema
validation fails for database `k`, only databases listed strictly
before `k` ever have tables enqueued, and the run ends with exit
code 1. -/
theorem c4_validation_gates_enqueue (env : Env) (bindir : String)
    (pre post : List String) (k : String)
    (hpath : env.pathExists (startupToolPath bindir) = true)
    (hdbs : env.dbs = pre ++ k :: post)
    (hpre : ∀ d ∈ pre, (env.schemaExec d).1 = 0)
    (hk : (env.schemaExec k).1 ≠ 0) :
    (∀ (e : Env) (b : String) (ad : Option String),
      goodTrace (traceOf (setup e b ad)) [] = true) ∧
    setupExitCode (setup env bindir none) = some 1 ∧
    ∀ db ∈ enqueuedDbs (traceOf (setup env bindir none)), db ∈ pre := by
  have hsetup : setup env bindir none = finishSetup (processDbs env env.dbs) := by
    simp [setup, hpath]
  obtain ⟨hfat, hloc⟩ := processDbs_first_failure env k post hk pre hpre
  cases hrec : processDbs env (pre ++ k :: post) with
  | fatal tr =>
    rw [hrec] at hloc
    have hthis : setup env bindir none = SetupOutcome.fatal tr := by
      rw [hsetup, hdbs, hrec]
      rfl
    refine ⟨goodTrace_setup, ?_, ?_⟩
    · rw [hthis]
      rfl
    · rw [hthis]
      exact hloc
  | ready tr jobs =>
    rw [hrec] at hfat
    simp [setupIsFatal] at hfat

/-- Witness for C4: in the three-database environment whose second
schema validation fails, the run is fatal. -/
theorem c4_validation_gates_enqueue_witness :
    setupExitCode (setup failingSchemaEnv "/bin" none) = some 1 :=
  (c4_validation_gates_enqueue failingSchemaEnv "/bin" ["dba"] ["dbc"] "dbb"
    rfl rfl (by decide) (by decide)).2.1

theorem processDbs_no_tables (env : Env) :
    ∀ (dbs : List String), (∀ db ∈ dbs, (env.schemaExec db).1 = 0) →
      (∀ db ∈ dbs, env.tablesOf db = []) →
      ∃ tr, processDbs env dbs = SetupOutcome.ready tr [] := by
  intro dbs
  induction dbs with
  | nil => exact fun _ _ => ⟨[], rfl⟩
  | cons db rest ih =>
    intro hok hemp
    obtain ⟨tr, htr⟩ := ih (fun x hx => hok x (List.mem_cons_of_mem db hx))
      (fun x hx => hemp x (List.mem_cons_of_mem db hx))
    have hd : (env.schemaExec db).1 = 0 := hok db (List.mem_cons_self db rest)
    have he : env.tablesOf db = [] := hemp db (List.mem_cons_self db rest)
    refine ⟨Event.validateOk db :: tr, ?_⟩
    simp [processDbs, hd, htr, he]

/-- Claim C6: when the startup check passes, every schema validation
succeeds, and no database contributes any table (including the case of
an empty database list), the run aborts with exit code 1 instead of
succeeding with nothing to do. -/
theorem c6_zero_tables_fatal (env : Env) (bindir : String)
    (hpath : env.pathExists (startupToolPath bindir) = true)
    (hok : ∀ db ∈ env.dbs, (env.schemaExec db).1 = 0)
    (hemp : ∀ db ∈ env.dbs, env.tablesOf db = []) :
    setupExitCode (setup env bindir none) = some 1 := by
  obtain ⟨tr, htr⟩ := processDbs_no_tables env env.dbs hok hemp
  simp [setup, hpath, htr, finishSetup, setupExitCode]

/-- Witness for C6: one database with zero eligible tables. -/
theorem c6_zero_tables_fatal_witness :
    setupExitCode (setup noTablesEnv "/bin" none) = some 1 :=
  c6_zero_tables_fatal noTablesEnv "/bin" rfl (fun _ _ => rfl) (fun _ _ => rfl)

/-- Claim C7: a run restricted to a database that is not in the
discovered database list aborts with exit code 1 and an empty event
trace, so before any schema validation, enqueueing, or dump work. -/
theorem c7_unknown_db_fatal (env : Env) (bindir : String) (d : String)
    (hpath : env.pathExists (startupToolPath bindir) = true)
    (hd : env.dbs.contains d = false) :
    setup env bindir (some d) = SetupOutcome.fatal [] ∧
    setupExitCode (setup env bindir (some d)) = some 1 ∧
    traceOf (setup env bindir (some d)) = [] := by
  have h : setup env bindir (some d) = SetupOutcome.fatal [] := by
    have hp : ¬env.pathExists (startupToolPath bindir) = false := by simp [hpath]
    simp only [setup, if_neg hp, if_pos hd]
  exact ⟨h, by rw [h]; rfl, by rw [h]; rfl⟩

/-- Witness for C7: requesting a database that was not discovered. -/
theorem c7_unknown_db_fatal_witness :
    setup singleDbEnv "/bin" (some "nosuchdb") = SetupOutcome.fatal [] ∧
    setupExitCode (setup singleDbEnv "/bin" (some "nosuchdb")) = some 1 ∧
    traceOf (setup singleDbEnv "/bin" (some "nosuchdb")) = [] :=
  c7_unknown_db_fatal singleDbEnv "/bin" "nosuchdb" rfl (by decide)

/-- Claim C9: the startup check probes only the `pg_dumpall` path while
both dump commands invoke `pg_dump` from the same bindir, so a bindir
holding `pg_dumpall` but not `pg_dump` passes the startup check (the
otherwise identical environment with working dumps reaches the ready
state), and the missing tool is met only later: the schema-only dump
fails with the command-not-found exit code and aborts the run, and in
a worker the same result would classify as a hard dump failure. -/
theorem c9_startup_check_gap :
    missingDumpEnv.pathExists (startupToolPath "/bin") = true ∧
    missingDumpEnv.pathExists (dumpToolPath "/bin") = false ∧
    (dumpToolPath "/bin").toList.isPrefixOf
      (workerCmd "/bin" "localhost" 5432 "postgres" "public.t1" "db1").toList = true ∧
    (dumpToolPath "/bin").toList.isPrefixOf
      (schemaCmd "/bin" "localhost" 5432 "postgres" "db1").toList = true ∧
    setupIsFatal (setup missingDumpEnvGood "/bin" none) = false ∧
    setupExitCode (setup missingDumpEnv "/bin" none) = some 1 ∧
    classifyDump 127 "/bin/pg_dump: not found" = DumpClass.hard := by
  set_option maxRecDepth 8000 in decide

theorem runWorkerJob_processed (env : Job → Int × String) (w : WorkerState) (jb : Job) :
    (runWorkerJob env w jb).processed = w.processed ++ [jb] := by
  cases h : classifyDump (env jb).1 (env jb).2 <;> simp [runWorkerJob, h]

theorem runWorkerJob_alive (env : Job → Int × String) (w : WorkerState) (jb : Job)
    (hnh : classifyDump (env jb).1 (env jb).2 ≠ DumpClass.hard) :
    (runWorkerJob env w jb).alive = w.alive := by
  cases h : classifyDump (env jb).1 (env jb).2 with
  | success => simp [runWorkerJob, h]
  | soft => simp [runWorkerJob, h]
  | hard => exact absurd h hnh

theorem allProcessed_cons (x : WorkerState) (xs : List WorkerState) :
    allProcessed (x :: xs) = x.processed ++ allProcessed xs := rfl

theorem allProcessed_set_perm (ws : List WorkerState) (i : Nat) (w w' : WorkerState)
    (jb : Job) (h : ws[i]? = some w) (hw : w'.processed = w.processed ++ [jb]) :
    (allProcessed (ws.set i w')).Perm (allProcessed ws ++ [jb]) := by
  induction ws generalizing i with
  | nil => simp at h
  | cons x xs ih =>
    cases i with
    | zero =>
      simp only [List.getElem?_cons_zero, Option.some.injEq] at h
      subst h
      rw [List.set_cons_zero, allProcessed_cons, allProcessed_cons, hw,
        List.append_assoc, List.append_assoc]
      exact List.Perm.append_left x.processed List.perm_append_comm
    | succ n =>
      simp only [List.getElem?_cons_succ] at h
      rw [List.set_cons_succ, allProcessed_cons, allProcessed_cons, List.append_assoc]
      exact List.Perm.append_left x.processed (ih n h)

theorem allProcessed_set_eq (ws : List WorkerState) (i : Nat) (w w' : WorkerState)
    (h : ws[i]? = some w) (hw : w'.processed = w.processed) :
    allProcessed (ws.set i w') = allProcessed ws := by
  induction ws generalizing i with
  | nil => simp at h
  | cons x xs ih =>
    cases i with
    | zero =>
      simp only [List.getElem?_cons_zero, Option.some.injEq] at h
      subst h
      rw [List.set_cons_zero, allProcessed_cons, allProcessed_cons, hw]
    | succ n =>
      simp only [List.getElem?_cons_succ] at h
      rw [List.set_cons_succ, allProcessed_cons, allProcessed_cons, ih n h]

theorem step_conserves (env : Job → Int × String) (st : RunState) (a : Action) :
    (allProcessed (step env st a).workers ++ (step env st a).queue).Perm
      (allProcessed st.workers ++ st.queue) := by
  by_cases h0 : st.exitCode.isSome
  · simp [step, h0]
  · cases a with
    | workerStep i =>
      cases hw : st.workers[i]? with
      | none => simp [step, h0, hw]
      | some w =>
        by_cases ha : w.alive
        · cases hq : st.queue with
          | nil => simp [step, h0, hw, ha, hq]
          | cons jb rest =>
            have hred : step env st (Action.workerStep i) =
                { st with
                  queue := rest
                  workers := st.workers.set i (runWorkerJob env w jb) } := by
              simp [step, h0, hw, ha, hq]
            rw [hred]
            have h2 := (allProcessed_set_perm st.workers i w (runWorkerJob env w jb) jb hw
              (runWorkerJob_processed env w jb)).append_right rest
            rw [List.append_assoc, List.singleton_append] at h2
            exact h2
        · simp [step, h0, hw, ha]
    | supervisorPoll =>
      by_cases hq : st.queue.isEmpty <;> by_cases hl : allWorkersAlive st.workers <;>
        simp [step, h0, hq, hl]
    | kill i =>
      cases hw : st.workers[i]? with
      | none => simp [step, h0, hw]
      | some w =>
        have hred : step env st (Action.kill i) =
            { st with workers := st.workers.set i { w with alive := false } } := by
          simp [step, h0, hw]
        rw [hred]
        rw [allProcessed_set_eq st.workers i w { w with alive := false } hw rfl]

theorem exec_conserves (env : Job → Int × String) (s : List Action) (st : RunState) :
    (allProcessed (exec env s st).workers ++ (exec env s st).queue).Perm
      (allProcessed st.workers ++ st.queue) := by
  induction s generalizing st with
  | nil => exact List.Perm.refl _
  | cons a s ih => exact (ih (step env st a)).trans (step_conserves env st a)

theorem step_queue_suffix (env : Job → Int × String) (st : RunState) (a : Action) :
    (step env st a).queue <:+ st.queue := by
  by_cases h0 : st.exitCode.isSome
  · simp [step, h0]
  · cases a with
    | workerStep i =>
      cases hw : st.workers[i]? with
      | none => simp [step, h0, hw]
      | some w =>
        by_cases ha : w.alive
        · cases hq : st.queue with
          | nil => simp [step, h0, hw, ha, hq]
          | cons jb rest =>
            have hred : (step env st (Action.workerStep i)).queue = rest := by
              simp [step, h0, hw, ha, hq]
            rw [hred]
            exact List.suffix_cons jb rest
        · simp [step, h0, hw, ha]
    | supervisorPoll =>
      by_cases hq : st.queue.isEmpty <;> by_cases hl : allWorkersAlive st.workers <;>
        simp [step, h0, hq, hl]
    | kill i =>
      cases hw : st.workers[i]? with
      | none => simp [step, h0, hw]
      | some w => simp [step, h0, hw]

theorem exec_queue_suffix (env : Job → Int × String) (s : List Action) (st : RunState) :
    (exec env s st).queue <:+ st.queue := by
  induction s generalizing st with
  | nil => exact List.suffix_refl _
  | cons a s ih => exact (ih (step env st a)).trans (step_queue_suffix env st a)

/-- Claim C8: under every schedule of worker steps, supervisor polls
and kills, the queue only shrinks from the front (the reached queue is
a suffix of the starting queue — nothing is ever reinserted), and the
jobs held in worker histories together with the remaining queue are a
permutation of the starting histories and queue — so each enqueued job
is dequeued at most once and never retried. -/
theorem c8_never_reinserted (env : Job → Int × String) (s : List Action) (st : RunState) :
    (exec env s st).queue <:+ st.queue ∧
    (allProcessed (exec env s st).workers ++ (exec env s st).queue).Perm
      (allProcessed st.workers ++ st.queue) :=
  ⟨exec_queue_suffix env s st, exec_conserves env s st⟩

theorem flatten_map_nil {α β : Type} (l : List α) :
    (l.map (fun _ => ([] : List β))).flatten = [] := by
  induction l with
  | nil => rfl
  | cons x xs ih => simp [ih]

theorem launchWorkers_length (j : Nat) : (launchWorkers j).length = j := by
  simp [launchWorkers]

theorem launchWorkers_alive (j : Nat) : ∀ w ∈ launchWorkers j, w.alive = true := by
  intro w hw
  simp only [launchWorkers, List.mem_map] at hw
  obtain ⟨i, _, rfl⟩ := hw
  rfl

theorem allProcessed_launchWorkers (j : Nat) : allProcessed (launchWorkers j) = [] := by
  rw [allProcessed, launchWorkers, List.map_map]
  exact flatten_map_nil (List.range j)

theorem drain_workers (env : Job → Int × String) (j : Nat) :
    ∀ (q : List Job) (ks : List Nat) (ws : List WorkerState),
      ks.length = q.length → (∀ k ∈ ks, k < j) →
      ws.length = j → (∀ w ∈ ws, w.alive = true) →
      (∀ jb ∈ q, classifyDump (env jb).1 (env jb).2 ≠ DumpClass.hard) →
      (exec env (ks.map Action.workerStep)
          { queue := q, workers := ws, exitCode := none }).queue = [] ∧
      (∀ w ∈ (exec env (ks.map Action.workerStep)
          { queue := q, workers := ws, exitCode := none }).workers, w.alive = true) ∧
      (exec env (ks.map Action.workerStep)
          { queue := q, workers := ws, exitCode := none }).exitCode = none := by
  intro q
  induction q with
  | nil =>
    intro ks ws hlen _ _ halive _
    have hks : ks = [] := List.eq_nil_of_length_eq_zero hlen
    subst hks
    exact ⟨rfl, halive, rfl⟩
  | cons jb q ih =>
    intro ks ws hlen hks hwlen halive hnh
    cases ks with
    | nil => simp at hlen
    | cons k ks' =>
      have hk : k < j := hks k (List.mem_cons_self k ks')
      have hkw : k < ws.length := by rw [hwlen]; exact hk
      have hw : ws[k]? = some ws[k] := List.getElem?_eq_getElem hkw
      have hwalive : ws[k].alive = true := halive _ (List.getElem_mem hkw)
      have hstep : step env { queue := jb :: q, workers := ws, exitCode := none }
          (Action.workerStep k) =
          { queue := q, workers := ws.set k (runWorkerJob env ws[k] jb),
            exitCode := none } := by
        simp [step, hw, hwalive]
      have hrec := ih ks' (ws.set k (runWorkerJob env ws[k] jb))
        (by simpa using hlen)
        (fun x hx => hks x (List.mem_cons_of_mem k hx))
        (by rw [List.length_set, hwlen])
        (fun w hw' => by
          rcases List.mem_or_eq_of_mem_set hw' with hmem | hset
          · exact halive w hmem
          · rw [hset, runWorkerJob_alive env _ jb (hnh jb (List.mem_cons_self jb q))]
            exact hwalive)
        (fun x hx => hnh x (List.mem_cons_of_mem jb hx))
      have hexec : exec env ((k :: ks').map Action.workerStep)
          { queue := jb :: q, workers := ws, exitCode := none } =
          exec env (ks'.map Action.workerStep)
            (step env { queue := jb :: q, workers := ws, exitCode := none }
              (Action.workerStep k)) := rfl
      rw [hexec, hstep]
      exact hrec

/-- Claim C2: with at least one worker, a nonempty job list, and no
hard dump failure, the fair round-robin drain schedule dequeues every
enqueued job exactly once across the pool — the concatenated worker
histories are a permutation of the job list — the queue empties, every
worker stays alive, and the supervisor poll that observes the empty
queue exits the drain loop and ends the run with exit code 0. -/
theorem c2_full_drain_success (env : Job → Int × String) (jobs : List Job) (j : Nat)
    (hj : 1 ≤ j) (hjobs : jobs ≠ [])
    (hnh : ∀ jb ∈ jobs, classifyDump (env jb).1 (env jb).2 ≠ DumpClass.hard) :
    (exec env (drainSchedule jobs.length j) (initState jobs j)).exitCode = some 0 ∧
    (exec env (drainSchedule jobs.length j) (initState jobs j)).queue = [] ∧
    (allProcessed (exec env (drainSchedule jobs.length j) (initState jobs j)).workers).Perm
      jobs ∧
    allWorkersAlive (exec env (drainSchedule jobs.length j) (initState jobs j)).workers =
      true := by
  obtain ⟨hq, halive, hcode⟩ := drain_workers env j jobs
    ((List.range jobs.length).map (fun k => k % j)) (launchWorkers j)
    (by simp)
    (by
      intro k hk
      simp only [List.mem_map, List.mem_range] at hk
      obtain ⟨m, _, rfl⟩ := hk
      exact Nat.mod_lt m hj)
    (launchWorkers_length j) (launchWorkers_alive j) hnh
  have hfinal : exec env (drainSchedule jobs.length j) (initState jobs j) =
      { exec env (((List.range jobs.length).map (fun k => k % j)).map Action.workerStep)
          { queue := jobs, workers := launchWorkers j, exitCode := none } with
        exitCode := some 0 } := by
    have h1 : exec env (drainSchedule jobs.length j) (initState jobs j) =
        step env (exec env (((List.range jobs.length).map (fun k => k % j)).map
            Action.workerStep)
          { queue := jobs, workers := launchWorkers j, exitCode := none })
          Action.supervisorPoll := by
      rw [drainSchedule, exec, List.foldl_append]
      rfl
    rw [h1]
    generalize hmid : exec env (((List.range jobs.length).map (fun k => k % j)).map
        Action.workerStep)
      { queue := jobs, workers := launchWorkers j, exitCode := none } = mid
    rw [hmid] at hq hcode
    simp [step, hcode, hq]
  have hperm : (allProcessed (exec env (((List.range jobs.length).map (fun k => k % j)).map
        Action.workerStep)
        { queue := jobs, workers := launchWorkers j, exitCode := none }).workers ++
      (exec env (((List.range jobs.length).map (fun k => k % j)).map Action.workerStep)
        { queue := jobs, workers := launchWorkers j, exitCode := none }).queue).Perm
      (allProcessed (launchWorkers j) ++ jobs) :=
    exec_conserves env _ _
  rw [hq, allProcessed_launchWorkers, List.append_nil, List.nil_append] at hperm
  refine ⟨?_, ?_, ?_, ?_⟩
  · rw [hfinal]
  · rw [hfinal]
    exact hq
  · rw [hfinal]
    exact hperm
  · rw [hfinal]
    have hall : ∀ w ∈ (exec env (((List.range jobs.length).map (fun k => k % j)).map
        Action.workerStep)
        { queue := jobs, workers := launchWorkers j, exitCode := none }).workers,
        w.alive = true := halive
    simp only [allWorkersAlive, List.all_eq_true]
    intro w hw
    simp [hall w hw]

/-- Witness for C2: two jobs drained by a single worker under an
environment in which every dump succeeds. -/
theorem c2_full_drain_success_witness :
    (exec (fun _ => (0, "")) (drainSchedule 2 1)
      (initState [("db1", "public.t1"), ("db1", "public.t2")] 1)).exitCode = some 0 ∧
    (exec (fun _ => (0, "")) (drainSchedule 2 1)
      (initState [("db1", "public.t1"), ("db1", "public.t2")] 1)).queue = [] ∧
    (allProcessed (exec (fun _ => (0, "")) (drainSchedule 2 1)
      (initState [("db1", "public.t1"), ("db1", "public.t2")] 1)).workers).Perm
      [("db1", "public.t1"), ("db1", "public.t2")] ∧
    allWorkersAlive (exec (fun _ => (0, "")) (drainSchedule 2 1)
      (initState [("db1", "public.t1"), ("db1", "public.t2")] 1)).workers = true :=
  c2_full_drain_success (fun _ => (0, "")) [("db1", "public.t1"), ("db1", "public.t2")] 1
    (by decide) (by decide) (by intro jb hjb; simp [classifyDump])

end QuickVerify
